import Mathlib

/-!
Verification of the garment layer mask decomposition pipeline
(`scripts/generate-clothing-masks.py`).

The pipeline: load a BGR image, convert to grayscale, inverse-threshold at
230 (dark pixels become foreground), clean the binary mask with a 5x5
morphological close followed by a 5x5 open, split the mask into three
row-band layers (topLayer rows `[0, int(h*0.45))`, baseLayer rows
`[int(h*0.05), int(h*0.35))`, bottom rows `[int(h*0.45), h)`), reject a
layer whose pixel sum is zero (and baseLayer additionally when its white
pixel count is below `h*w*0.01`), and persist each accepted layer as a
white RGBA image whose alpha channel is the mask.

Binary masks are embedded as `ℕ → ℕ → Bool` functions together with
explicit `(h, w)` dimensions; a `true` cell is the uint8 value 255, a
`false` cell is 0.  Python's float arithmetic on the band constants
(`h * 0.45` etc.) is embedded exactly: each double constant is the dyadic
rational actually stored in the binary (e.g. `0.45 = 8106479329266893 /
2 ^ 54`), and the product with the exact integer `h` is rounded to 53
significant bits with round-half-to-even, which is IEEE-754 double
multiplication for every height that fits in 53 bits.
-/

/-- Round `n / 2 ^ k` to the nearest integer, ties to even
(the IEEE-754 significand rounding rule). -/
def roundHalfEven (n k : ℕ) : ℕ :=
  if 2 ^ (k - 1) < n % 2 ^ k then n / 2 ^ k + 1
  else if n % 2 ^ k < 2 ^ (k - 1) then n / 2 ^ k
  else if n / 2 ^ k % 2 = 0 then n / 2 ^ k else n / 2 ^ k + 1

/-- Numerator (over the constant's power-of-two denominator) of the
IEEE-754 double product `M/2^E * h`: the exact integer product `M * h`
rounded to 53 significant bits, round-half-to-even. -/
def fmul (M h : ℕ) : ℕ :=
  if Nat.size (M * h) ≤ 53 then M * h
  else roundHalfEven (M * h) (Nat.size (M * h) - 53) * 2 ^ (Nat.size (M * h) - 53)

/-- The double `0.45` is exactly `M45 / 2 ^ 54`. -/
def M45 : ℕ := 8106479329266893

/-- The double `0.35` is exactly `M35 / 2 ^ 54`. -/
def M35 : ℕ := 6305039478318694

/-- The double `0.05` is exactly `M05 / 2 ^ 57`. -/
def M05 : ℕ := 7205759403792794

/-- The double `0.01` is exactly `M01 / 2 ^ 59`. -/
def M01 : ℕ := 5764607523034235

/-- `int(h * 0.45)` of the script, with Python float semantics. -/
def splitIdx45 (h : ℕ) : ℕ := fmul M45 h / 2 ^ 54

/-- `int(h * 0.35)` of the script, with Python float semantics. -/
def splitIdx35 (h : ℕ) : ℕ := fmul M35 h / 2 ^ 54

/-- `int(h * 0.05)` of the script, with Python float semantics. -/
def splitIdx05 (h : ℕ) : ℕ := fmul M05 h / 2 ^ 57

theorem roundHalfEven_cases (n k : ℕ) :
    roundHalfEven n k = n / 2 ^ k ∨ roundHalfEven n k = n / 2 ^ k + 1 := by
  unfold roundHalfEven
  repeat' split
  all_goals simp

theorem size_pred_le {n : ℕ} (hn : 1 ≤ n) : 2 ^ (Nat.size n - 1) ≤ n := by
  have h1 : 0 < Nat.size n := Nat.size_pos.mpr hn
  have := Nat.lt_size.mp (by omega : Nat.size n - 1 < Nat.size n)
  exact this

/-- Upper error bound of the rounded product: `fmul M h ≤ M * h * (1 + 2⁻⁵²)`. -/
theorem fmul_le (M h : ℕ) : fmul M h * 2 ^ 52 ≤ M * h * (2 ^ 52 + 1) := by
  unfold fmul
  split
  · nlinarith [Nat.zero_le (M * h)]
  · rename_i hsz
    set num := M * h with hnum
    set d := Nat.size num - 53 with hd
    have hnum1 : 1 ≤ num := by
      by_contra hc
      have : num = 0 := by omega
      simp [this, Nat.size] at hsz
    have hlow : 2 ^ (Nat.size num - 1) ≤ num := size_pred_le hnum1
    have hd52 : 2 ^ d * 2 ^ 52 ≤ num := by
      have : d + 52 = Nat.size num - 1 := by omega
      calc 2 ^ d * 2 ^ 52 = 2 ^ (d + 52) := by rw [pow_add]
        _ ≤ num := by rw [this]; exact hlow
    rcases roundHalfEven_cases num d with hc | hc
    · rw [hc]
      have h1 : num / 2 ^ d * 2 ^ d ≤ num := Nat.div_mul_le_self _ _
      nlinarith [Nat.zero_le num]
    · rw [hc]
      have h1 : num / 2 ^ d * 2 ^ d ≤ num := Nat.div_mul_le_self _ _
      have : (num / 2 ^ d + 1) * 2 ^ d ≤ num + 2 ^ d := by nlinarith
      calc (num / 2 ^ d + 1) * 2 ^ d * 2 ^ 52
          ≤ (num + 2 ^ d) * 2 ^ 52 := by nlinarith
        _ = num * 2 ^ 52 + 2 ^ d * 2 ^ 52 := by ring
        _ ≤ num * 2 ^ 52 + num := by omega
        _ = num * (2 ^ 52 + 1) := by ring

/-- Lower error bound of the rounded product, subtraction-free form:
`M * h ≤ fmul M h * (1 + 2⁻⁵²)` scaled by `2 ^ 52`. -/
theorem le_fmul (M h : ℕ) : M * h * 2 ^ 52 ≤ fmul M h * 2 ^ 52 + M * h := by
  unfold fmul
  split
  · exact Nat.le_add_right _ _
  · rename_i hsz
    obtain ⟨num, hnum⟩ : ∃ num, M * h = num := ⟨_, rfl⟩
    rw [hnum] at hsz ⊢
    obtain ⟨d, hd⟩ : ∃ d, Nat.size num - 53 = d := ⟨_, rfl⟩
    rw [hd]
    have hnum1 : 1 ≤ num := by
      by_contra hc
      have : num = 0 := by omega
      simp [this, Nat.size] at hsz
    have hlow : 2 ^ (Nat.size num - 1) ≤ num := size_pred_le hnum1
    have hd52 : 2 ^ d * 2 ^ 52 ≤ num := by
      have hde : d + 52 = Nat.size num - 1 := by omega
      calc 2 ^ d * 2 ^ 52 = 2 ^ (d + 52) := by rw [pow_add]
        _ ≤ num := by rw [hde]; exact hlow
    have hmod : num % 2 ^ d < 2 ^ d := Nat.mod_lt _ (Nat.pos_pow_of_pos d (by norm_num))
    have hsplit : 2 ^ d * (num / 2 ^ d) + num % 2 ^ d = num := Nat.div_add_mod num (2 ^ d)
    have hq : num / 2 ^ d * 2 ^ d ≤ roundHalfEven num d * 2 ^ d := by
      rcases roundHalfEven_cases num d with hc | hc
      · rw [hc]
      · rw [hc]; nlinarith
    calc num * 2 ^ 52
        = num / 2 ^ d * 2 ^ d * 2 ^ 52 + num % 2 ^ d * 2 ^ 52 := by
          conv_lhs => rw [← hsplit]
          ring
      _ ≤ num / 2 ^ d * 2 ^ d * 2 ^ 52 + 2 ^ d * 2 ^ 52 := by
          have := le_of_lt hmod
          exact Nat.add_le_add_left (Nat.mul_le_mul_right _ this) _
      _ ≤ roundHalfEven num d * 2 ^ d * 2 ^ 52 + num :=
          Nat.add_le_add (Nat.mul_le_mul_right _ hq) hd52

theorem M01_hundred (k : ℕ) : M01 * (100 * k) = k * 2 ^ 59 + 12 * k := by
  unfold M01; ring_nf

/-- At an exact percent boundary `n = 100 * k` the rounded product
`n * 0.01` is exactly `k`: the excess `12 * k / 2 ^ 59` is rounded away. -/
theorem fmul_hundred (k : ℕ) (hk1 : 1 ≤ k) (hk2 : k ≤ 2 ^ 45) :
    fmul M01 (100 * k) = k * 2 ^ 59 := by
  have hnum : M01 * (100 * k) = k * 2 ^ 59 + 12 * k := M01_hundred k
  have hsk1 : 1 ≤ Nat.size k := Nat.size_pos.mpr hk1
  have hsk46 : Nat.size k ≤ 46 := by
    apply Nat.size_le.mpr
    calc k ≤ 2 ^ 45 := hk2
      _ < 2 ^ 46 := by norm_num
  have hklow : 2 ^ (Nat.size k - 1) ≤ k := size_pred_le hk1
  have hkhigh : k < 2 ^ Nat.size k := Nat.lt_size_self k
  obtain ⟨sk, hsk⟩ : ∃ sk, Nat.size k = sk := ⟨_, rfl⟩
  rw [hsk] at hsk1 hsk46 hklow hkhigh
  have h12k : 12 * k < 2 ^ 59 := by
    calc 12 * k ≤ 12 * 2 ^ 45 := by omega
      _ < 2 ^ 59 := by norm_num
  have hupper : M01 * (100 * k) < 2 ^ (sk + 59) := by
    rw [hnum]
    calc k * 2 ^ 59 + 12 * k < k * 2 ^ 59 + 2 ^ 59 := by omega
      _ = (k + 1) * 2 ^ 59 := by ring
      _ ≤ 2 ^ sk * 2 ^ 59 := by
          have : k + 1 ≤ 2 ^ sk := hkhigh
          exact Nat.mul_le_mul_right _ this
      _ = 2 ^ (sk + 59) := by rw [pow_add]
  have hlower : 2 ^ (sk + 58) ≤ M01 * (100 * k) := by
    rw [hnum]
    calc 2 ^ (sk + 58) = 2 ^ (sk - 1) * 2 ^ 59 := by
          rw [← pow_add]; congr 1; omega
      _ ≤ k * 2 ^ 59 := Nat.mul_le_mul_right _ hklow
      _ ≤ k * 2 ^ 59 + 12 * k := Nat.le_add_right _ _
  have hsize : Nat.size (M01 * (100 * k)) = sk + 59 := by
    have hle : Nat.size (M01 * (100 * k)) ≤ sk + 59 := Nat.size_le.mpr hupper
    have hlt : sk + 58 < Nat.size (M01 * (100 * k)) := Nat.lt_size.mpr hlower
    omega
  have hmoddiv : 2 ^ (53 - sk) * 2 ^ (sk + 6) = 2 ^ 59 := by
    rw [← pow_add]; congr 1; omega
  have hnum2 : M01 * (100 * k) = k * 2 ^ (53 - sk) * 2 ^ (sk + 6) + 12 * k := by
    rw [hnum, mul_assoc, hmoddiv]
  have h12ksmall : 12 * k < 2 ^ (sk + 6) := by
    calc 12 * k < 12 * 2 ^ sk := by omega
      _ ≤ 64 * 2 ^ sk := by omega
      _ = 2 ^ (sk + 6) := by rw [pow_add]; ring
  have hdiv : M01 * (100 * k) / 2 ^ (sk + 6) = k * 2 ^ (53 - sk) := by
    rw [hnum2, add_comm, Nat.add_mul_div_right _ _ (Nat.pos_pow_of_pos _ (by norm_num)),
      Nat.div_eq_of_lt h12ksmall, Nat.zero_add]
  have hmod : M01 * (100 * k) % 2 ^ (sk + 6) = 12 * k := by
    rw [hnum2, add_comm, Nat.add_mul_mod_self_right, Nat.mod_eq_of_lt h12ksmall]
  have h12khalf : 12 * k < 2 ^ (sk + 5) := by
    calc 12 * k < 12 * 2 ^ sk := by omega
      _ ≤ 32 * 2 ^ sk := by omega
      _ = 2 ^ (sk + 5) := by rw [pow_add]; ring
  unfold fmul
  rw [hsize]
  rw [if_neg (by omega)]
  have hd : sk + 59 - 53 = sk + 6 := by omega
  rw [hd]
  unfold roundHalfEven
  rw [hmod, hdiv]
  have hd1 : sk + 6 - 1 = sk + 5 := by omega
  rw [hd1]
  rw [if_neg (by omega), if_pos h12khalf]
  rw [mul_assoc, hmoddiv]

/-- Inside the float range of real images, the float density comparison
`count < h * w * 0.01` agrees with the exact rational comparison. -/
theorem density_lt_iff (c n : ℕ) (h1 : 1 ≤ n) (h2 : n ≤ 2 ^ 50) :
    c * 2 ^ 59 < fmul M01 n ↔ 100 * c < n := by
  constructor
  · intro hlt
    by_contra hge
    push_neg at hge
    have hkey : fmul M01 n ≤ c * 2 ^ 59 := by
      by_cases hdvd : n % 100 = 0
      · obtain ⟨k, hk⟩ : ∃ k, n = 100 * k := ⟨n / 100, by omega⟩
        have hk1 : 1 ≤ k := by omega
        have hk2 : k ≤ 2 ^ 45 := by
          have : (100 : ℕ) * k ≤ 2 ^ 50 := by omega
          nlinarith [this]
        rw [hk, fmul_hundred k hk1 hk2]
        have : k ≤ c := by omega
        exact Nat.mul_le_mul_right _ this
      · obtain ⟨q, hq⟩ : ∃ q, n / 100 = q := ⟨_, rfl⟩
        have hqr : 100 * q + n % 100 = n := by omega
        have hr99 : n % 100 ≤ 99 := by omega
        have hr1 : 1 ≤ n % 100 := by omega
        have hqc : q + 1 ≤ c := by omega
        have hq44 : q ≤ 2 ^ 44 := by omega
        have hub := fmul_le M01 n
        have hstep : M01 * n * (2 ^ 52 + 1) < (q + 1) * 2 ^ 59 * 2 ^ 52 := by
          have hn99 : n ≤ 100 * q + 99 := by omega
          have hA : (100 * q + 99) * (M01 * (2 ^ 52 + 1)) =
              q * (100 * M01 * (2 ^ 52 + 1)) + 99 * (M01 * (2 ^ 52 + 1)) := by ring
          have hsplitA : (100 : ℕ) * M01 * (2 ^ 52 + 1) =
              2 ^ 111 + 630503947831869452 := by norm_num [M01]
          have hqD : q * 630503947831869452 + 99 * (M01 * (2 ^ 52 + 1)) < 2 ^ 111 := by
            have : q * 630503947831869452 ≤ 2 ^ 44 * 630503947831869452 :=
              Nat.mul_le_mul_right _ hq44
            norm_num [M01] at this ⊢
            omega
          calc M01 * n * (2 ^ 52 + 1) ≤ (100 * q + 99) * (M01 * (2 ^ 52 + 1)) := by
                have := Nat.mul_le_mul_right (M01 * (2 ^ 52 + 1)) hn99
                calc M01 * n * (2 ^ 52 + 1) = n * (M01 * (2 ^ 52 + 1)) := by ring
                  _ ≤ (100 * q + 99) * (M01 * (2 ^ 52 + 1)) := this
            _ = q * (100 * M01 * (2 ^ 52 + 1)) + 99 * (M01 * (2 ^ 52 + 1)) := hA
            _ = q * 2 ^ 111 + (q * 630503947831869452 + 99 * (M01 * (2 ^ 52 + 1))) := by
                rw [hsplitA]; ring
            _ < q * 2 ^ 111 + 2 ^ 111 := by omega
            _ = (q + 1) * 2 ^ 59 * 2 ^ 52 := by ring
        have hflt : fmul M01 n * 2 ^ 52 < (q + 1) * 2 ^ 59 * 2 ^ 52 :=
          lt_of_le_of_lt hub hstep
        have : fmul M01 n < (q + 1) * 2 ^ 59 :=
          Nat.lt_of_mul_lt_mul_right hflt
        calc fmul M01 n ≤ (q + 1) * 2 ^ 59 := le_of_lt this
          _ ≤ c * 2 ^ 59 := Nat.mul_le_mul_right _ hqc
    omega
  · intro hlt
    have hlb := le_fmul M01 n
    have hstep : 100 * (c * 2 ^ 59 * 2 ^ 52) + 100 * (M01 * n) < 100 * (M01 * n * 2 ^ 52) := by
      have hc1 : 100 * c + 1 ≤ n := by omega
      have h100M : (100 : ℕ) * M01 = 2 ^ 59 + 12 := by norm_num [M01]
      have hrhs : 100 * (M01 * n * 2 ^ 52) = n * 2 ^ 111 + 12 * n * 2 ^ 52 := by
        calc 100 * (M01 * n * 2 ^ 52) = (100 * M01) * n * 2 ^ 52 := by ring
          _ = (2 ^ 59 + 12) * n * 2 ^ 52 := by rw [h100M]
          _ = n * 2 ^ 111 + 12 * n * 2 ^ 52 := by ring
      have hlhs1 : 100 * (c * 2 ^ 59 * 2 ^ 52) + 2 ^ 111 ≤ n * 2 ^ 111 := by
        calc 100 * (c * 2 ^ 59 * 2 ^ 52) + 2 ^ 111 = (100 * c + 1) * 2 ^ 111 := by ring
          _ ≤ n * 2 ^ 111 := Nat.mul_le_mul_right _ hc1
      have hlhs2 : 100 * (M01 * n) = n * 2 ^ 59 + 12 * n := by
        calc 100 * (M01 * n) = (100 * M01) * n := by ring
          _ = (2 ^ 59 + 12) * n := by rw [h100M]
          _ = n * 2 ^ 59 + 12 * n := by ring
      have hsmall : n * 2 ^ 59 + 12 * n < 2 ^ 111 + 12 * n * 2 ^ 52 := by
        have ha : n * 2 ^ 59 ≤ 2 ^ 50 * 2 ^ 59 := Nat.mul_le_mul_right _ h2
        have hb : 12 * n ≤ 12 * n * 2 ^ 52 := by nlinarith [Nat.zero_le (12 * n)]
        have : (2 : ℕ) ^ 50 * 2 ^ 59 < 2 ^ 111 := by norm_num
        omega
      rw [hrhs]
      omega
    have h1s : 100 * (c * 2 ^ 59 * 2 ^ 52) + 100 * (M01 * n) <
        100 * (fmul M01 n * 2 ^ 52) + 100 * (M01 * n) := by
      have := Nat.mul_le_mul_left 100 hlb
      calc 100 * (c * 2 ^ 59 * 2 ^ 52) + 100 * (M01 * n)
          < 100 * (M01 * n * 2 ^ 52) := hstep
        _ ≤ 100 * (fmul M01 n * 2 ^ 52) + 100 * (M01 * n) := by
            calc 100 * (M01 * n * 2 ^ 52) ≤ 100 * (fmul M01 n * 2 ^ 52 + M01 * n) := this
              _ = 100 * (fmul M01 n * 2 ^ 52) + 100 * (M01 * n) := by ring
    have h2s : c * 2 ^ 59 * 2 ^ 52 < fmul M01 n * 2 ^ 52 := by omega
    exact Nat.lt_of_mul_lt_mul_right h2s

/-- The baseLayer band's upper bound never exceeds the topLayer band's
upper bound: `int(h*0.35) ≤ int(h*0.45)` under float semantics. -/
theorem splitIdx35_le_splitIdx45 (h : ℕ) : splitIdx35 h ≤ splitIdx45 h := by
  unfold splitIdx35 splitIdx45
  apply Nat.div_le_div_right
  have h35 := fmul_le M35 h
  have h45 := le_fmul M45 h
  have hconst : M35 * (2 ^ 52 + 1) + M45 ≤ M45 * 2 ^ 52 := by norm_num [M35, M45]
  have hmono : M35 * h * (2 ^ 52 + 1) + M45 * h ≤ M45 * h * 2 ^ 52 := by
    have := Nat.mul_le_mul_right h hconst
    calc M35 * h * (2 ^ 52 + 1) + M45 * h = (M35 * (2 ^ 52 + 1) + M45) * h := by ring
      _ ≤ M45 * 2 ^ 52 * h := this
      _ = M45 * h * 2 ^ 52 := by ring
  have hchain : fmul M35 h * 2 ^ 52 + M45 * h ≤ fmul M45 h * 2 ^ 52 + M45 * h := by
    calc fmul M35 h * 2 ^ 52 + M45 * h ≤ M35 * h * (2 ^ 52 + 1) + M45 * h := by omega
      _ ≤ M45 * h * 2 ^ 52 := hmono
      _ ≤ fmul M45 h * 2 ^ 52 + M45 * h := h45
  have : fmul M35 h * 2 ^ 52 ≤ fmul M45 h * 2 ^ 52 := by omega
  exact Nat.le_of_mul_le_mul_right this (by norm_num)

/-- The topLayer band stays inside the image: `int(h*0.45) ≤ h`. -/
theorem splitIdx45_le (h : ℕ) : splitIdx45 h ≤ h := by
  unfold splitIdx45
  have hub := fmul_le M45 h
  have hconst : M45 * (2 ^ 52 + 1) ≤ 2 ^ 54 * 2 ^ 52 := by norm_num [M45]
  have hch : fmul M45 h * 2 ^ 52 ≤ h * 2 ^ 54 * 2 ^ 52 := by
    calc fmul M45 h * 2 ^ 52 ≤ M45 * h * (2 ^ 52 + 1) := hub
      _ = h * (M45 * (2 ^ 52 + 1)) := by ring
      _ ≤ h * (2 ^ 54 * 2 ^ 52) := Nat.mul_le_mul_left _ hconst
      _ = h * 2 ^ 54 * 2 ^ 52 := by ring
  have hle : fmul M45 h ≤ h * 2 ^ 54 := Nat.le_of_mul_le_mul_right hch (by norm_num)
  calc fmul M45 h / 2 ^ 54 ≤ h * 2 ^ 54 / 2 ^ 54 := Nat.div_le_div_right hle
    _ = h := Nat.mul_div_cancel _ (by norm_num)

/-! ## Morphology

`cv2.morphologyEx` with `np.ones((5, 5), np.uint8)`: dilation takes the
maximum and erosion the minimum of the 5x5 window centred on the pixel,
restricted to the image (OpenCV's default constant border is `-inf` for
dilation and `+inf` for erosion, so out-of-image samples never contribute).
A binary mask is `m : ℕ → ℕ → Bool` read only at indices `i < h`, `j < w`.
-/

/-- Two indices are within the 5x5 window radius of each other. -/
def near (a b : ℕ) : Prop := a ≤ b + 2 ∧ b ≤ a + 2

instance (a b : ℕ) : Decidable (near a b) := by unfold near; infer_instance

theorem near_refl (a : ℕ) : near a a := by unfold near; omega

theorem near_symm {a b : ℕ} (hab : near a b) : near b a := by
  unfold near at hab ⊢; omega

/-- `cv2.dilate` with a 5x5 all-ones kernel: maximum of the window. -/
def dilate (h w : ℕ) (m : ℕ → ℕ → Bool) : ℕ → ℕ → Bool := fun i j =>
  decide (∃ i' < h, ∃ j' < w, near i i' ∧ near j j' ∧ m i' j' = true)

/-- `cv2.erode` with a 5x5 all-ones kernel: minimum of the window. -/
def erode (h w : ℕ) (m : ℕ → ℕ → Bool) : ℕ → ℕ → Bool := fun i j =>
  decide (∀ i' < h, ∀ j' < w, near i i' → near j j' → m i' j' = true)

/-- `cv2.morphologyEx(mask, cv2.MORPH_CLOSE, kernel)`: dilate then erode. -/
def morphClose (h w : ℕ) (m : ℕ → ℕ → Bool) : ℕ → ℕ → Bool :=
  erode h w (dilate h w m)

/-- `cv2.morphologyEx(mask, cv2.MORPH_OPEN, kernel)`: erode then dilate. -/
def morphOpen (h w : ℕ) (m : ℕ → ℕ → Bool) : ℕ → ℕ → Bool :=
  dilate h w (erode h w m)

/-- The Morphological Cleaner of the script: close (fill holes) then
open (remove speckles), both with the 5x5 kernel. -/
def cleanMask (h w : ℕ) (m : ℕ → ℕ → Bool) : ℕ → ℕ → Bool :=
  morphOpen h w (morphClose h w m)

theorem dilate_eq_true {h w : ℕ} {m : ℕ → ℕ → Bool} {i j : ℕ} :
    dilate h w m i j = true ↔
      ∃ i' < h, ∃ j' < w, near i i' ∧ near j j' ∧ m i' j' = true := by
  simp [dilate]

theorem erode_eq_true {h w : ℕ} {m : ℕ → ℕ → Bool} {i j : ℕ} :
    erode h w m i j = true ↔
      ∀ i' < h, ∀ j' < w, near i i' → near j j' → m i' j' = true := by
  simp [erode]

/-- Pointwise order on the in-image part of a mask. -/
def leD (h w : ℕ) (m m' : ℕ → ℕ → Bool) : Prop :=
  ∀ i < h, ∀ j < w, m i j = true → m' i j = true

theorem leD_refl (h w : ℕ) (m : ℕ → ℕ → Bool) : leD h w m m :=
  fun _ _ _ _ hm => hm

theorem leD_trans {h w : ℕ} {a b c : ℕ → ℕ → Bool}
    (hab : leD h w a b) (hbc : leD h w b c) : leD h w a c :=
  fun i hi j hj ha => hbc i hi j hj (hab i hi j hj ha)

/-- Dilation is increasing; it reads its input only inside the image. -/
theorem dilate_mono {h w : ℕ} {m m' : ℕ → ℕ → Bool} (hmm : leD h w m m') :
    ∀ i j, dilate h w m i j = true → dilate h w m' i j = true := by
  intro i j hd
  rcases dilate_eq_true.mp hd with ⟨i', hi', j', hj', hni, hnj, hv⟩
  exact dilate_eq_true.mpr ⟨i', hi', j', hj', hni, hnj, hmm i' hi' j' hj' hv⟩

/-- Erosion is increasing; it reads its input only inside the image. -/
theorem erode_mono {h w : ℕ} {m m' : ℕ → ℕ → Bool} (hmm : leD h w m m') :
    ∀ i j, erode h w m i j = true → erode h w m' i j = true := by
  intro i j he
  refine erode_eq_true.mpr ?_
  intro i' hi' j' hj' hni hnj
  exact hmm i' hi' j' hj' (erode_eq_true.mp he i' hi' j' hj' hni hnj)

/-- Closing is extensive on the image: `m ≤ close m`. -/
theorem le_morphClose (h w : ℕ) (m : ℕ → ℕ → Bool) :
    leD h w m (morphClose h w m) := by
  intro i hi j hj hm
  refine erode_eq_true.mpr ?_
  intro i' hi' j' hj' hni hnj
  exact dilate_eq_true.mpr ⟨i, hi, j, hj, near_symm hni, near_symm hnj, hm⟩

/-- Opening is anti-extensive on the image: `open m ≤ m`. -/
theorem morphOpen_le (h w : ℕ) (m : ℕ → ℕ → Bool) :
    leD h w (morphOpen h w m) m := by
  intro i hi j hj ho
  rcases dilate_eq_true.mp ho with ⟨i', hi', j', hj', hni, hnj, hv⟩
  exact erode_eq_true.mp hv i hi j hj (near_symm hni) (near_symm hnj)

theorem morphClose_mono {h w : ℕ} {m m' : ℕ → ℕ → Bool} (hmm : leD h w m m') :
    ∀ i j, morphClose h w m i j = true → morphClose h w m' i j = true :=
  erode_mono (fun i _ j _ hv => dilate_mono hmm i j hv)

theorem morphOpen_mono {h w : ℕ} {m m' : ℕ → ℕ → Bool} (hmm : leD h w m m') :
    ∀ i j, morphOpen h w m i j = true → morphOpen h w m' i j = true :=
  dilate_mono (fun i _ j _ hv => erode_mono hmm i j hv)

/-- Absorption `dilate (erode (dilate m)) = dilate m` on the image. -/
theorem ded_eq_dilate (h w : ℕ) (m : ℕ → ℕ → Bool) :
    ∀ i < h, ∀ j < w,
      dilate h w (erode h w (dilate h w m)) i j = dilate h w m i j := by
  intro i hi j hj
  have hle : leD h w (dilate h w (erode h w (dilate h w m))) (dilate h w m) :=
    morphOpen_le h w (dilate h w m)
  have hge : ∀ i j, dilate h w m i j = true →
      dilate h w (erode h w (dilate h w m)) i j = true :=
    dilate_mono (le_morphClose h w m)
  rcases hv : dilate h w (erode h w (dilate h w m)) i j with _ | _
  · rcases hv' : dilate h w m i j with _ | _
    · rfl
    · rw [hge i j hv'] at hv; exact hv.symm
  · exact (hle i hi j hj hv).symm

/-- Absorption `erode (dilate (erode m)) = erode m` on the image. -/
theorem ede_eq_erode (h w : ℕ) (m : ℕ → ℕ → Bool) :
    ∀ i < h, ∀ j < w,
      erode h w (dilate h w (erode h w m)) i j = erode h w m i j := by
  intro i hi j hj
  have h1 : leD h w (erode h w m) (erode h w (dilate h w (erode h w m))) :=
    le_morphClose h w (erode h w m)
  have h2 : ∀ i j, erode h w (dilate h w (erode h w m)) i j = true →
      erode h w m i j = true :=
    erode_mono (morphOpen_le h w m)
  rcases hv : erode h w (dilate h w (erode h w m)) i j with _ | _
  · rcases hv' : erode h w m i j with _ | _
    · rfl
    · rw [h1 i hi j hj hv'] at hv; exact hv.symm
  · exact (h2 i j hv).symm

/-- Closing is idempotent on the image. -/
theorem morphClose_idem (h w : ℕ) (m : ℕ → ℕ → Bool) :
    ∀ i < h, ∀ j < w,
      morphClose h w (morphClose h w m) i j = morphClose h w m i j := by
  intro i hi j hj
  exact ede_eq_erode h w (dilate h w m) i hi j hj

/-- Opening is idempotent on the image. -/
theorem morphOpen_idem (h w : ℕ) (m : ℕ → ℕ → Bool) :
    ∀ i < h, ∀ j < w,
      morphOpen h w (morphOpen h w m) i j = morphOpen h w m i j := by
  intro i hi j hj
  exact ded_eq_dilate h w (erode h w m) i hi j hj

/-- The open-after-close filter is idempotent on the image: the standard
lattice argument from extensivity of closing, anti-extensivity of opening,
monotonicity, and idempotence of each. -/
theorem cleanMask_idem_leD (h w : ℕ) (m : ℕ → ℕ → Bool) :
    leD h w (cleanMask h w (cleanMask h w m)) (cleanMask h w m) ∧
      leD h w (cleanMask h w m) (cleanMask h w (cleanMask h w m)) := by
  constructor
  · -- γφγφ ≤ γφ
    have s1 : leD h w (morphOpen h w (morphClose h w m)) (morphClose h w m) :=
      morphOpen_le h w (morphClose h w m)
    have s2 : leD h w (morphClose h w (morphOpen h w (morphClose h w m)))
        (morphClose h w m) := by
      intro i hi j hj hv
      have hstep := morphClose_mono s1 i j hv
      rw [morphClose_idem h w m i hi j hj] at hstep
      exact hstep
    intro i hi j hj hv
    exact morphOpen_mono s2 i j hv
  · -- γφ ≤ γφγφ
    have t1 : leD h w (morphOpen h w (morphClose h w m))
        (morphClose h w (morphOpen h w (morphClose h w m))) :=
      le_morphClose h w (morphOpen h w (morphClose h w m))
    intro i hi j hj hv
    have hgg : morphOpen h w (morphOpen h w (morphClose h w m)) i j = true := by
      rw [morphOpen_idem h w (morphClose h w m) i hi j hj]
      exact hv
    exact morphOpen_mono t1 i j hgg

/-! ## Pipeline data model

A `RasterImage` is a BGR pixel grid `ℕ → ℕ → ℕ × ℕ × ℕ` (OpenCV's
`imread` channel order) with explicit dimensions, read only at `i < h`,
`j < w`. -/

/-- `cv2.cvtColor(img, cv2.COLOR_BGR2GRAY)` per pixel: OpenCV's
fixed-point luminance `(B*1868 + G*9617 + R*4899 + 2^13) >> 14`. -/
def cvtGray (px : ℕ × ℕ × ℕ) : ℕ :=
  (px.1 * 1868 + px.2.1 * 9617 + px.2.2 * 4899 + 2 ^ 13) / 2 ^ 14

/-- `cv2.threshold(gray, 230, 255, cv2.THRESH_BINARY_INV)` per pixel:
the output is 255 (foreground, here `true`) unless the source value
exceeds the threshold. -/
def thresholdINV (v : ℕ) : Bool :=
  if 230 < v then false else true

/-- The thresholding stage of `remove_background`: grayscale conversion
followed by the inverse binary threshold at 230. -/
def thresholdMask (img : ℕ → ℕ → ℕ × ℕ × ℕ) : ℕ → ℕ → Bool := fun i j =>
  thresholdINV (cvtGray (img i j))

/-- `remove_background` after a successful `imread`: threshold the
grayscale image, then clean with morphological close and open. -/
def remove_background (h w : ℕ) (img : ℕ → ℕ → ℕ × ℕ × ℕ) : ℕ → ℕ → Bool :=
  cleanMask h w (thresholdMask img)

/-- The three layer names produced by `split_clothing_layers`
(Python dict insertion order: topLayer, baseLayer, bottom). -/
inductive LayerName where
  | topLayer
  | baseLayer
  | bottom
deriving DecidableEq, Repr

/-- `top_mask`: equal to the mask on rows `[0, int(h*0.45))`, zero
(background) elsewhere. -/
def topLayerMask (h : ℕ) (m : ℕ → ℕ → Bool) : ℕ → ℕ → Bool := fun i j =>
  decide (i < splitIdx45 h) && m i j

/-- `base_mask`: equal to the mask on rows `[int(h*0.05), int(h*0.35))`,
zero elsewhere. -/
def baseLayerMask (h : ℕ) (m : ℕ → ℕ → Bool) : ℕ → ℕ → Bool := fun i j =>
  decide (splitIdx05 h ≤ i ∧ i < splitIdx35 h) && m i j

/-- `bottom_mask`: equal to the mask on rows `[int(h*0.45), h)`, zero
elsewhere. -/
def bottomMask (h : ℕ) (m : ℕ → ℕ → Bool) : ℕ → ℕ → Bool := fun i j =>
  decide (splitIdx45 h ≤ i) && m i j

/-- `split_clothing_layers` as a map from layer name to sub-mask. -/
def split_clothing_layers (h : ℕ) (m : ℕ → ℕ → Bool) : LayerName → ℕ → ℕ → Bool
  | .topLayer => topLayerMask h m
  | .baseLayer => baseLayerMask h m
  | .bottom => bottomMask h m

/-- `np.sum(layer_mask == 255)`: number of foreground pixels. -/
def countFG (h w : ℕ) (m : ℕ → ℕ → Bool) : ℕ :=
  ∑ i in Finset.range h, ∑ j in Finset.range w, if m i j then 1 else 0

/-- `np.sum(layer_mask)`: sum of the uint8 values (255 per foreground
pixel). -/
def maskSum (h w : ℕ) (m : ℕ → ℕ → Bool) : ℕ :=
  ∑ i in Finset.range h, ∑ j in Finset.range w, if m i j then 255 else 0

/-- `white_pixels < (h * w * 0.01)` of the script, with Python
float semantics: the integer count is compared exactly against the
double `h * w * 0.01`. -/
def densityReject (c n : ℕ) : Bool :=
  decide (c * 2 ^ 59 < fmul M01 n)

/-- The per-layer accept/reject decision of `process_clothing_image`:
baseLayer is first checked against the 1% density rule, then every layer
against the zero-sum rule; `true` means the layer's mask artifact is
written. -/
def acceptLayer (name : LayerName) (h w : ℕ) (lm : ℕ → ℕ → Bool) : Bool :=
  match name with
  | .baseLayer =>
      if densityReject (countFG h w lm) (h * w) then false
      else if maskSum h w lm = 0 then false else true
  | _ => if maskSum h w lm = 0 then false else true

/-- A persisted RGBA mask artifact: dimensions and a pixel grid of
`(R, G, B, A)` byte quadruples. -/
structure MaskArtifact where
  h : ℕ
  w : ℕ
  px : ℕ → ℕ → ℕ × ℕ × ℕ × ℕ

/-- `save_mask`: RGB set to white everywhere, alpha equal to the mask
value (255 for foreground, 0 for background). -/
def save_mask (h w : ℕ) (m : ℕ → ℕ → Bool) : MaskArtifact :=
  ⟨h, w, fun i j => (255, 255, 255, if m i j then 255 else 0)⟩

/-- Reading a mask back from an artifact's alpha channel. -/
def decodeAlpha (a : MaskArtifact) : ℕ → ℕ → Bool := fun i j =>
  decide ((a.px i j).2.2.2 = 255)

/-- The layer names `process_clothing_image` iterates, in Python dict
insertion order, keeping those whose sub-mask is accepted. -/
def acceptedLayers (h w : ℕ) (img : ℕ → ℕ → ℕ × ℕ × ℕ) : List LayerName :=
  [LayerName.topLayer, LayerName.baseLayer, LayerName.bottom].filter
    (fun nm => acceptLayer nm h w
      (split_clothing_layers h (remove_background h w img) nm))

/-- A garment template `(style, detail)` from `CLOTHING_IMAGES`. -/
def GarmentTemplate : Type := String × String

/-- The filesystem as seen by the orchestrator: for each template either
a decodable source image with its dimensions, or nothing (missing file or
`imread` failure). -/
def Env : Type := GarmentTemplate → Option (ℕ × ℕ × (ℕ → ℕ → ℕ × ℕ × ℕ))

/-- `process_clothing_image`: returns `False` when the source image is
missing or cannot be decoded; otherwise segments, decomposes, filters and
writes the accepted layers and returns `True`. -/
def process_clothing_image (env : Env) (t : GarmentTemplate) :
    Bool × List LayerName :=
  match env t with
  | none => (false, [])
  | some (h, w, img) => (true, acceptedLayers h w img)

/-- The batch loop of `main`: process every template in catalog order,
counting the successful ones. -/
def mainLoop (env : Env) : List GarmentTemplate → ℕ × List (Bool × List LayerName)
  | [] => (0, [])
  | t :: ts =>
      ((if (process_clothing_image env t).1 then 1 else 0) + (mainLoop env ts).1,
        process_clothing_image env t :: (mainLoop env ts).2)

/-! ## Helper lemmas -/

theorem size_eq_of {N s : ℕ} (h1 : 2 ^ (s - 1) ≤ N) (h2 : N < 2 ^ s) (hs : 1 ≤ s) :
    Nat.size N = s := by
  have hle : Nat.size N ≤ s := Nat.size_le.mpr h2
  have hlt : s - 1 < Nat.size N := Nat.lt_size.mpr h1
  omega

theorem maskSum_eq (h w : ℕ) (m : ℕ → ℕ → Bool) :
    maskSum h w m = 255 * countFG h w m := by
  unfold maskSum countFG
  rw [Finset.mul_sum]
  refine Finset.sum_congr rfl fun i _ => ?_
  rw [Finset.mul_sum]
  refine Finset.sum_congr rfl fun j _ => ?_
  rcases m i j <;> simp

theorem countFG_eq_zero_iff {h w : ℕ} {m : ℕ → ℕ → Bool} :
    countFG h w m = 0 ↔ ∀ i < h, ∀ j < w, m i j = false := by
  unfold countFG
  rw [Finset.sum_eq_zero_iff]
  constructor
  · intro hz i hi j hj
    have := hz i (Finset.mem_range.mpr hi)
    rw [Finset.sum_eq_zero_iff] at this
    have := this j (Finset.mem_range.mpr hj)
    rcases hm : m i j
    · rfl
    · rw [hm] at this; simp at this
  · intro hall i hi
    rw [Finset.sum_eq_zero_iff]
    intro j hj
    rw [hall i (Finset.mem_range.mp hi) j (Finset.mem_range.mp hj)]
    simp

/-- A mask that is `true` everywhere stays `true` on the image after
cleaning. -/
theorem cleanMask_const_true (h w : ℕ) :
    ∀ i < h, ∀ j < w, cleanMask h w (fun _ _ => true) i j = true := by
  intro i hi j hj
  have hc : morphClose h w (fun _ _ => true) i j = true :=
    le_morphClose h w (fun _ _ => true) i hi j hj rfl
  refine dilate_eq_true.mpr ⟨i, hi, j, hj, near_refl i, near_refl j, ?_⟩
  refine erode_eq_true.mpr ?_
  intro i' hi' j' hj' _ _
  exact le_morphClose h w (fun _ _ => true) i' hi' j' hj' rfl

/-- A mask that is `false` everywhere stays `false` on the image after
cleaning. -/
theorem cleanMask_const_false (h w : ℕ) :
    ∀ i < h, ∀ j < w, cleanMask h w (fun _ _ => false) i j = false := by
  intro i hi j hj
  have hclose : ∀ i₀, i₀ < h → ∀ j₀, j₀ < w →
      morphClose h w (fun _ _ => false) i₀ j₀ = false := by
    intro i₀ hi₀ j₀ hj₀
    rcases hv : morphClose h w (fun _ _ => false) i₀ j₀
    · rfl
    · have := erode_eq_true.mp hv i₀ hi₀ j₀ hj₀ (near_refl i₀) (near_refl j₀)
      rcases dilate_eq_true.mp this with ⟨_, _, _, _, _, _, hfalse⟩
      exact absurd hfalse (by simp)
  rcases hv : cleanMask h w (fun _ _ => false) i j
  · rfl
  · have := morphOpen_le h w (morphClose h w (fun _ _ => false)) i hi j hj hv
    rw [hclose i hi j hj] at this
    exact this.symm

/-! ## Claims -/

/-- C1: the Mask Encoder writes an artifact with the mask's dimensions,
white RGB channels everywhere, alpha equal to the mask value at every
pixel (255 on foreground, 0 on background, never an intermediate value),
and reading the alpha channel back reproduces the encoded mask. -/
theorem C1_encoder_roundtrip (h w : ℕ) (m : ℕ → ℕ → Bool) :
    (save_mask h w m).h = h ∧ (save_mask h w m).w = w ∧
    ∀ i < h, ∀ j < w,
      ((save_mask h w m).px i j).1 = 255 ∧
      ((save_mask h w m).px i j).2.1 = 255 ∧
      ((save_mask h w m).px i j).2.2.1 = 255 ∧
      ((save_mask h w m).px i j).2.2.2 = (if m i j then 255 else 0) ∧
      (((save_mask h w m).px i j).2.2.2 = 0 ∨
        ((save_mask h w m).px i j).2.2.2 = 255) ∧
      decodeAlpha (save_mask h w m) i j = m i j := by
  refine ⟨rfl, rfl, ?_⟩
  intro i _ j _
  unfold save_mask decodeAlpha
  rcases hm : m i j <;> simp [hm]

theorem C1_encoder_roundtrip_witness :
    decodeAlpha (save_mask 1 1 (fun _ _ => true)) 0 0 = true ∧
      decodeAlpha (save_mask 1 1 (fun _ _ => false)) 0 0 = false :=
  ⟨((C1_encoder_roundtrip 1 1 (fun _ _ => true)).2.2 0 (by decide) 0
      (by decide)).2.2.2.2.2,
    ((C1_encoder_roundtrip 1 1 (fun _ _ => false)).2.2 0 (by decide) 0
      (by decide)).2.2.2.2.2⟩

/-- C2 counterexample: on a uniform image of luminance exactly 230 (the
threshold), the segmenter classifies the pixel as foreground, while the
claim (foreground iff luminance strictly below 230, equality giving
background) says it must be background. -/
theorem C2_threshold_cex :
    ¬ (thresholdMask (fun _ _ => (230, 230, 230)) 0 0 = true ↔
      cvtGray (230, 230, 230) < 230) := by
  decide

/-- C2 (amended): a pixel is classified as foreground iff its luminance
is at most 230, i.e. strictly below 231; a pixel whose luminance equals
the threshold 230 is foreground (`cv2.THRESH_BINARY_INV` keeps values
that do not exceed the threshold). -/
theorem C2_threshold_le (img : ℕ → ℕ → ℕ × ℕ × ℕ) (i j : ℕ) :
    thresholdMask img i j = true ↔ cvtGray (img i j) ≤ 230 := by
  unfold thresholdMask thresholdINV
  by_cases hc : 230 < cvtGray (img i j)
  · simp [hc]
  · simp [hc]
    omega

/-- C3: for every height `h ≥ 1`, every row of the image lies in exactly
one of the topLayer band `[0, int(h*0.45))` and the bottom band
`[int(h*0.45), h)`, and the baseLayer band `[int(h*0.05), int(h*0.35))`
is contained in the topLayer band, which itself stays inside the image. -/
theorem C3_band_coverage (h : ℕ) (_hh : 1 ≤ h) :
    (∀ r < h, (r < splitIdx45 h ∨ (splitIdx45 h ≤ r ∧ r < h)) ∧
      ¬ (r < splitIdx45 h ∧ (splitIdx45 h ≤ r ∧ r < h))) ∧
    (∀ r, splitIdx05 h ≤ r → r < splitIdx35 h → r < splitIdx45 h) ∧
    splitIdx45 h ≤ h := by
  refine ⟨fun r hr => by omega, fun r h05 h35 => ?_, splitIdx45_le h⟩
  have := splitIdx35_le_splitIdx45 h
  omega

theorem C3_band_coverage_witness :
    (∀ r < 200, (r < splitIdx45 200 ∨ (splitIdx45 200 ≤ r ∧ r < 200)) ∧
      ¬ (r < splitIdx45 200 ∧ (splitIdx45 200 ≤ r ∧ r < 200))) ∧
    (∀ r, splitIdx05 200 ≤ r → r < splitIdx35 200 → r < splitIdx45 200) ∧
    splitIdx45 200 ≤ 200 :=
  C3_band_coverage 200 (by norm_num)

/-- C10: at every pixel the topLayer and bottom sub-masks are disjoint
and their union restores the input mask exactly, and every baseLayer
foreground pixel is also a topLayer foreground pixel. -/
theorem C10_mask_partition (h w : ℕ) (m : ℕ → ℕ → Bool) :
    ∀ i < h, ∀ j < w,
      (topLayerMask h m i j || bottomMask h m i j) = m i j ∧
      (topLayerMask h m i j && bottomMask h m i j) = false ∧
      (baseLayerMask h m i j = true → topLayerMask h m i j = true) := by
  intro i _ j _
  have h3545 := splitIdx35_le_splitIdx45 h
  unfold topLayerMask bottomMask baseLayerMask
  by_cases h45 : i < splitIdx45 h
  · have h45' : ¬ splitIdx45 h ≤ i := by omega
    rcases hm : m i j <;> simp [h45, h45', hm]
  · have h45' : splitIdx45 h ≤ i := by omega
    have h35 : ¬ (splitIdx05 h ≤ i ∧ i < splitIdx35 h) := by omega
    rcases hm : m i j <;> simp [h45, h45', h35, hm]

theorem C10_mask_partition_witness :
    (topLayerMask 200 (fun _ _ => true) 0 0 ||
        bottomMask 200 (fun _ _ => true) 0 0) = true ∧
      (topLayerMask 200 (fun _ _ => true) 0 0 &&
        bottomMask 200 (fun _ _ => true) 0 0) = false ∧
      (baseLayerMask 200 (fun _ _ => true) 0 0 = true →
        topLayerMask 200 (fun _ _ => true) 0 0 = true) :=
  C10_mask_partition 200 100 (fun _ _ => true) 0 (by norm_num) 0 (by norm_num)

/-- C5: a sub-mask with zero foreground pixels is rejected by the
Layer Significance Filter whatever its layer name, and consequently the
layer never appears in the accepted-layer list, so no artifact is written
for it. -/
theorem C5_zero_reject (name : LayerName) (h w : ℕ) (lm : ℕ → ℕ → Bool)
    (hz : countFG h w lm = 0) :
    acceptLayer name h w lm = false ∧
    ∀ img : ℕ → ℕ → ℕ × ℕ × ℕ,
      split_clothing_layers h (remove_background h w img) name = lm →
      name ∉ acceptedLayers h w img := by
  have hs : maskSum h w lm = 0 := by rw [maskSum_eq, hz, mul_zero]
  have hrej : acceptLayer name h w lm = false := by
    cases name <;> simp [acceptLayer, hs]
  refine ⟨hrej, fun img hsplit hmem => ?_⟩
  unfold acceptedLayers at hmem
  rw [List.mem_filter] at hmem
  rw [hsplit, hrej] at hmem
  exact absurd hmem.2 (by simp)

theorem C5_zero_reject_witness :
    acceptLayer LayerName.topLayer 1 1 (fun _ _ => false) = false :=
  (C5_zero_reject LayerName.topLayer 1 1 (fun _ _ => false) (by decide)).1

/-- C4: for image dimensions in the range of real rasters, the baseLayer
sub-mask is rejected exactly when its foreground count is strictly below
1% of `h * w`, while topLayer and bottom are rejected exactly when their
foreground count is zero. -/
theorem C4_density_rule (h w : ℕ) (h1 : 1 ≤ h * w) (h2 : h * w ≤ 2 ^ 50)
    (lm : ℕ → ℕ → Bool) :
    (acceptLayer LayerName.baseLayer h w lm = false ↔
      100 * countFG h w lm < h * w) ∧
    (acceptLayer LayerName.topLayer h w lm = false ↔ countFG h w lm = 0) ∧
    (acceptLayer LayerName.bottom h w lm = false ↔ countFG h w lm = 0) := by
  have hiff := density_lt_iff (countFG h w lm) (h * w) h1 h2
  have hsum := maskSum_eq h w lm
  refine ⟨?_, ?_, ?_⟩
  · unfold acceptLayer
    by_cases hd : densityReject (countFG h w lm) (h * w) = true
    · rw [if_pos hd]
      have h100 : 100 * countFG h w lm < h * w := by
        unfold densityReject at hd
        exact hiff.mp (of_decide_eq_true hd)
      simp [h100]
    · rw [if_neg hd]
      have hc : ¬ (100 * countFG h w lm < h * w) := by
        intro hcc
        exact hd (by unfold densityReject; exact decide_eq_true (hiff.mpr hcc))
      have hnz : ¬ maskSum h w lm = 0 := by
        intro h0
        rw [hsum] at h0
        have hz : countFG h w lm = 0 := by omega
        exact hc (by omega)
      rw [if_neg hnz]
      simp [hc]
  · by_cases hz : maskSum h w lm = 0
    · have hcz : countFG h w lm = 0 := by rw [hsum] at hz; omega
      simp [acceptLayer, hz, hcz]
    · have hcz : countFG h w lm ≠ 0 := by
        intro h0
        exact hz (by rw [hsum, h0, mul_zero])
      simp [acceptLayer, hz, hcz]
  · by_cases hz : maskSum h w lm = 0
    · have hcz : countFG h w lm = 0 := by rw [hsum] at hz; omega
      simp [acceptLayer, hz, hcz]
    · have hcz : countFG h w lm ≠ 0 := by
        intro h0
        exact hz (by rw [hsum, h0, mul_zero])
      simp [acceptLayer, hz, hcz]

theorem C4_density_rule_witness :
    (acceptLayer LayerName.baseLayer 10 10 (fun _ _ => false) = false ↔
      100 * countFG 10 10 (fun _ _ => false) < 10 * 10) ∧
    (acceptLayer LayerName.topLayer 10 10 (fun _ _ => false) = false ↔
      countFG 10 10 (fun _ _ => false) = 0) ∧
    (acceptLayer LayerName.bottom 10 10 (fun _ _ => false) = false ↔
      countFG 10 10 (fun _ _ => false) = 0) :=
  C4_density_rule 10 10 (by norm_num) (by norm_num) (fun _ _ => false)

/-- C6: the Morphological Cleaner (5x5 close followed by 5x5 open) is
idempotent: applying it twice to any binary mask gives the same image
pixels as applying it once. -/
theorem C6_cleaner_idem (h w : ℕ) (m : ℕ → ℕ → Bool) :
    ∀ i < h, ∀ j < w,
      cleanMask h w (cleanMask h w m) i j = cleanMask h w m i j := by
  intro i hi j hj
  obtain ⟨hle, hge⟩ := cleanMask_idem_leD h w m
  rcases hv : cleanMask h w (cleanMask h w m) i j
  · rcases hv' : cleanMask h w m i j
    · rfl
    · rw [hge i hi j hj hv'] at hv
      exact hv.symm
  · exact (hle i hi j hj hv).symm

theorem C6_cleaner_idem_witness :
    cleanMask 3 3 (cleanMask 3 3 (fun _ _ => true)) 0 0 =
      cleanMask 3 3 (fun _ _ => true) 0 0 :=
  C6_cleaner_idem 3 3 (fun _ _ => true) 0 (by norm_num) 0 (by norm_num)

/-- C9: segmenting a uniform pure-white image yields a mask with zero
foreground pixels, and segmenting a uniform pure-black image yields a
mask that is foreground at every image pixel. -/
theorem C9_uniform_segmentation (h w : ℕ) :
    countFG h w (remove_background h w (fun _ _ => (255, 255, 255))) = 0 ∧
    ∀ i < h, ∀ j < w,
      remove_background h w (fun _ _ => (0, 0, 0)) i j = true := by
  constructor
  · have hseg : thresholdMask (fun _ _ => ((255 : ℕ), (255 : ℕ), (255 : ℕ))) =
        fun _ _ => false := by
      funext i j
      show thresholdINV (cvtGray (255, 255, 255)) = false
      decide
    unfold remove_background
    rw [hseg]
    exact countFG_eq_zero_iff.mpr (cleanMask_const_false h w)
  · have hseg : thresholdMask (fun _ _ => ((0 : ℕ), (0 : ℕ), (0 : ℕ))) =
        fun _ _ => true := by
      funext i j
      show thresholdINV (cvtGray (0, 0, 0)) = true
      decide
    unfold remove_background
    rw [hseg]
    exact cleanMask_const_true h w

theorem C9_uniform_segmentation_witness :
    countFG 3 3 (remove_background 3 3 (fun _ _ => (255, 255, 255))) = 0 ∧
      remove_background 3 3 (fun _ _ => (0, 0, 0)) 0 0 = true :=
  ⟨(C9_uniform_segmentation 3 3).1,
    (C9_uniform_segmentation 3 3).2 0 (by norm_num) 0 (by norm_num)⟩

theorem process_clothing_image_fst (env : Env) (t : GarmentTemplate) :
    (process_clothing_image env t).1 = (env t).isSome := by
  unfold process_clothing_image
  rcases env t with _ | ⟨h, w, img⟩ <;> rfl

/-- C7: the batch loop visits every catalog entry in order (one outcome
per template, failures skipped but recorded), and the reported success
count is exactly the number of templates whose source image loaded,
regardless of how many of their layers were accepted. -/
theorem C7_batch_resilience (env : Env) (catalog : List GarmentTemplate) :
    (mainLoop env catalog).2 = catalog.map (process_clothing_image env) ∧
    (mainLoop env catalog).1 =
      (catalog.filter (fun t => (env t).isSome)).length ∧
    ∀ t : GarmentTemplate, (process_clothing_image env t).1 = (env t).isSome := by
  refine ⟨?_, ?_, process_clothing_image_fst env⟩
  · induction catalog with
    | nil => rfl
    | cons t ts ih => simp [mainLoop, ih]
  · induction catalog with
    | nil => rfl
    | cons t ts ih =>
        show (if (process_clothing_image env t).1 then 1 else 0) +
            (mainLoop env ts).1 = _
        rw [process_clothing_image_fst env t, ih, List.filter_cons]
        rcases henv : (env t).isSome
        · simp [henv]
        · simp [henv]
          omega

theorem countFG_congr {h w : ℕ} {m m' : ℕ → ℕ → Bool}
    (he : ∀ i < h, ∀ j < w, m i j = m' i j) :
    countFG h w m = countFG h w m' := by
  unfold countFG
  refine Finset.sum_congr rfl fun i hi => Finset.sum_congr rfl fun j hj => ?_
  rw [he i (Finset.mem_range.mp hi) j (Finset.mem_range.mp hj)]

theorem fmul45_200 : fmul M45 200 = 1621295865853378560 := by
  have hs : Nat.size (M45 * 200) = 61 := by
    apply size_eq_of
    · norm_num [M45]
    · norm_num [M45]
    · norm_num
  unfold fmul
  rw [hs]
  unfold roundHalfEven
  norm_num [M45]

theorem fmul05_200 : fmul M05 200 = 1441151880758558720 := by
  have hs : Nat.size (M05 * 200) = 61 := by
    apply size_eq_of
    · norm_num [M05]
    · norm_num [M05]
    · norm_num
  unfold fmul
  rw [hs]
  unfold roundHalfEven
  norm_num [M05]

theorem fmul35_200 : fmul M35 200 = 1261007895663738880 := by
  have hs : Nat.size (M35 * 200) = 61 := by
    apply size_eq_of
    · norm_num [M35]
    · norm_num [M35]
    · norm_num
  unfold fmul
  rw [hs]
  unfold roundHalfEven
  norm_num [M35]

theorem fmul01_20000 : fmul M01 20000 = 115292150460684697600 := by
  have hs : Nat.size (M01 * 20000) = 67 := by
    apply size_eq_of
    · norm_num [M01]
    · norm_num [M01]
    · norm_num
  unfold fmul
  rw [hs]
  unfold roundHalfEven
  norm_num [M01]

theorem splitIdx45_def (h : ℕ) : splitIdx45 h = fmul M45 h / 2 ^ 54 := rfl

theorem splitIdx35_def (h : ℕ) : splitIdx35 h = fmul M35 h / 2 ^ 54 := rfl

theorem splitIdx05_def (h : ℕ) : splitIdx05 h = fmul M05 h / 2 ^ 57 := rfl

theorem splitIdx45_200 : splitIdx45 200 = 90 := by
  rw [splitIdx45_def, fmul45_200]
  norm_num

theorem splitIdx05_200 : splitIdx05 200 = 10 := by
  rw [splitIdx05_def, fmul05_200]
  norm_num

theorem splitIdx35_200 : splitIdx35 200 = 70 := by
  rw [splitIdx35_def, fmul35_200]
  norm_num

theorem densityReject_6000_20000 : densityReject 6000 20000 = false := by
  unfold densityReject
  rw [fmul01_20000]
  norm_num

/-- The 200x100 uniform mid-gray source image of the end-to-end scenario
(BGR value 128 in every channel, luminance 128). -/
def img128 : ℕ → ℕ → ℕ × ℕ × ℕ := fun _ _ => (128, 128, 128)

theorem thresholdMask_img128 : thresholdMask img128 = fun _ _ => true := by
  funext i j
  show thresholdINV (cvtGray (128, 128, 128)) = true
  decide

theorem remove_background_img128 :
    ∀ i < 200, ∀ j < 100, remove_background 200 100 img128 i j = true := by
  intro i hi j hj
  unfold remove_background
  rw [thresholdMask_img128]
  exact cleanMask_const_true 200 100 i hi j hj

set_option maxRecDepth 40000 in
theorem countFG_base_img128 :
    countFG 200 100 (baseLayerMask 200 (remove_background 200 100 img128)) =
      6000 := by
  have he : ∀ i < 200, ∀ j < 100,
      baseLayerMask 200 (remove_background 200 100 img128) i j =
        decide (10 ≤ i ∧ i < 70) := by
    intro i hi j hj
    unfold baseLayerMask
    rw [splitIdx05_200, splitIdx35_200, remove_background_img128 i hi j hj,
      Bool.and_true]
  rw [countFG_congr he]
  decide

set_option maxRecDepth 40000 in
theorem countFG_top_img128 :
    countFG 200 100 (topLayerMask 200 (remove_background 200 100 img128)) =
      9000 := by
  have he : ∀ i < 200, ∀ j < 100,
      topLayerMask 200 (remove_background 200 100 img128) i j =
        decide (i < 90) := by
    intro i hi j hj
    unfold topLayerMask
    rw [splitIdx45_200, remove_background_img128 i hi j hj, Bool.and_true]
  rw [countFG_congr he]
  decide

set_option maxRecDepth 40000 in
theorem countFG_bottom_img128 :
    countFG 200 100 (bottomMask 200 (remove_background 200 100 img128)) =
      11000 := by
  have he : ∀ i < 200, ∀ j < 100,
      bottomMask 200 (remove_background 200 100 img128) i j =
        decide (90 ≤ i) := by
    intro i hi j hj
    unfold bottomMask
    rw [splitIdx45_200, remove_background_img128 i hi j hj, Bool.and_true]
  rw [countFG_congr he]
  decide

/-- C8: on a 200x100 uniform mid-gray (luminance 128) source image, the
cleaned mask is fully foreground; the topLayer sub-mask is foreground
exactly on rows 0-89, bottom exactly on rows 90-199, baseLayer exactly on
rows 10-69; the baseLayer count (6000 pixels, 30% of the image) clears the
1% density cutoff, all three layers are accepted, and the accepted-layer
list is exactly the three layer names, so three artifacts are written. -/
theorem C8_end_to_end :
    (∀ i < 200, ∀ j < 100, remove_background 200 100 img128 i j = true) ∧
    (∀ i < 200, ∀ j < 100,
      (topLayerMask 200 (remove_background 200 100 img128) i j = true ↔
        i < 90) ∧
      (bottomMask 200 (remove_background 200 100 img128) i j = true ↔
        90 ≤ i) ∧
      (baseLayerMask 200 (remove_background 200 100 img128) i j = true ↔
        10 ≤ i ∧ i < 70)) ∧
    countFG 200 100 (baseLayerMask 200 (remove_background 200 100 img128)) =
      6000 ∧
    densityReject 6000 (200 * 100) = false ∧
    acceptLayer LayerName.topLayer 200 100
      (topLayerMask 200 (remove_background 200 100 img128)) = true ∧
    acceptLayer LayerName.baseLayer 200 100
      (baseLayerMask 200 (remove_background 200 100 img128)) = true ∧
    acceptLayer LayerName.bottom 200 100
      (bottomMask 200 (remove_background 200 100 img128)) = true ∧
    acceptedLayers 200 100 img128 =
      [LayerName.topLayer, LayerName.baseLayer, LayerName.bottom] := by
  have haccTop : acceptLayer LayerName.topLayer 200 100
      (topLayerMask 200 (remove_background 200 100 img128)) = true := by
    show (if maskSum 200 100
        (topLayerMask 200 (remove_background 200 100 img128)) = 0
      then false else true) = true
    rw [if_neg (by rw [maskSum_eq, countFG_top_img128]; norm_num)]
  have haccBase : acceptLayer LayerName.baseLayer 200 100
      (baseLayerMask 200 (remove_background 200 100 img128)) = true := by
    show (if densityReject (countFG 200 100
          (baseLayerMask 200 (remove_background 200 100 img128))) (200 * 100)
      then false
      else if maskSum 200 100
          (baseLayerMask 200 (remove_background 200 100 img128)) = 0
        then false else true) = true
    have hdr : densityReject (countFG 200 100
        (baseLayerMask 200 (remove_background 200 100 img128)))
        (200 * 100) = false := by
      rw [countFG_base_img128, show ((200 : ℕ) * 100) = 20000 by norm_num]
      exact densityReject_6000_20000
    rw [hdr, if_neg Bool.false_ne_true,
      if_neg (by rw [maskSum_eq, countFG_base_img128]; norm_num)]
  have haccBot : acceptLayer LayerName.bottom 200 100
      (bottomMask 200 (remove_background 200 100 img128)) = true := by
    show (if maskSum 200 100
        (bottomMask 200 (remove_background 200 100 img128)) = 0
      then false else true) = true
    rw [if_neg (by rw [maskSum_eq, countFG_bottom_img128]; norm_num)]
  refine ⟨remove_background_img128, ?_, countFG_base_img128, ?_,
    haccTop, haccBase, haccBot, ?_⟩
  · intro i hi j hj
    refine ⟨?_, ?_, ?_⟩
    · unfold topLayerMask
      rw [splitIdx45_200, remove_background_img128 i hi j hj, Bool.and_true]
      simp
    · unfold bottomMask
      rw [splitIdx45_200, remove_background_img128 i hi j hj, Bool.and_true]
      simp
    · unfold baseLayerMask
      rw [splitIdx05_200, splitIdx35_200,
        remove_background_img128 i hi j hj, Bool.and_true]
      simp
  · rw [show ((200 : ℕ) * 100) = 20000 by norm_num]
    exact densityReject_6000_20000
  · have h1 : split_clothing_layers 200 (remove_background 200 100 img128)
        LayerName.topLayer =
        topLayerMask 200 (remove_background 200 100 img128) := rfl
    have h2 : split_clothing_layers 200 (remove_background 200 100 img128)
        LayerName.baseLayer =
        baseLayerMask 200 (remove_background 200 100 img128) := rfl
    have h3 : split_clothing_layers 200 (remove_background 200 100 img128)
        LayerName.bottom =
        bottomMask 200 (remove_background 200 100 img128) := rfl
    show List.filter _ _ = _
    rw [List.filter_cons_of_pos (by
          show acceptLayer LayerName.topLayer 200 100
              (split_clothing_layers 200 (remove_background 200 100 img128)
                LayerName.topLayer) = true
          rw [h1]
          exact haccTop),
      List.filter_cons_of_pos (by
          show acceptLayer LayerName.baseLayer 200 100
              (split_clothing_layers 200 (remove_background 200 100 img128)
                LayerName.baseLayer) = true
          rw [h2]
          exact haccBase),
      List.filter_cons_of_pos (by
          show acceptLayer LayerName.bottom 200 100
              (split_clothing_layers 200 (remove_background 200 100 img128)
                LayerName.bottom) = true
          rw [h3]
          exact haccBot),
      List.filter_nil]

theorem C8_end_to_end_witness :
    remove_background 200 100 img128 0 0 = true ∧
      (topLayerMask 200 (remove_background 200 100 img128) 0 0 = true ↔
        0 < 90) :=
  ⟨C8_end_to_end.1 0 (by norm_num) 0 (by norm_num),
    (C8_end_to_end.2.1 0 (by norm_num) 0 (by norm_num)).1⟩
